import Mathlib

/-!
Verification development for the nickel-customs package-submission checker.

The definitions below are a shallow embedding of the pipeline in
`src/main.rs` and `src/package.rs`:

* `splitSlash` models Rust's `str::split('/')` (same semantics on the
  ASCII paths the pipeline sees: always at least one piece, empty pieces
  kept).
* `changed_packages` / `changedPackagesPatch` / `extractLines` embed
  `package::changed_packages`; diff-text parsing (`Patch::from_multiple`,
  from the external `gitpatch` crate) is factored out, so these operate on
  the already-parsed patch list, as at the call site in `make_report`.
* `classifyPatch` / `check_diff_paths` embed `check_diff_paths` in
  `main.rs`.
* `Permission.check` embeds `Permission::check`; the external GitHub
  membership service is a parameter (its answer or transport failure), and
  the second component of the result counts how many membership calls were
  made, so that "no external call" is expressible.
* `check_manifest` embeds `package::check_manifest`; the external manifest
  evaluation and the index's `available_versions` query are parameters.
* External library code (serde deserialization, `Id::path`, semver
  constraint matching) is not in the repository's sources; it is passed in
  as parameters or, for `idPath`, modelled from the spec.
-/

/-- A semantic version as in `nickel_lang_package::version::SemVer`:
major.minor.patch plus a pre-release tag (empty string means none).
Rust `==` on it is structural equality, with no coercion between
pre-release and release versions. -/
structure SemVer where
  major : Nat
  minor : Nat
  patch : Nat
  pre : String
deriving DecidableEq

/-- The GitHub-precise identity of a package
(`nickel_lang_package::index::PreciseId::Github`): organization, repository
name, optional subdirectory (empty string means none) and pinned commit. -/
structure PreciseId where
  org : String
  name : String
  subdir : String
  commit : String
deriving DecidableEq

/-- A dependency declared by an index descriptor
(`nickel_lang_package::IndexDependency`): the dependency's identity
(rendered form) and its version constraint. The constraint's matching
predicate (`dep.version.matches(v)` in Rust) lives in the external
package library, so it is embedded as the predicate itself. -/
structure IndexDependency where
  id : String
  version : SemVer → Bool

/-- A package descriptor as decoded from one added index line
(`nickel_lang_package::index::Package`): identity, version, and declared
dependencies in iteration order. -/
structure Package where
  id : PreciseId
  version : SemVer
  dependencies : List IndexDependency

/-- Modelled from the spec: the descriptor's expected index path is
computed from its identity as organization/repository, plus the
subdirectory if non-empty (`Id::path` lives in the external
`nickel_lang_package` crate, not in this repository). The comparison site
in `changed_packages` prefixes the index root `github/`, so the model
includes it. -/
def idPath (id : PreciseId) : String :=
  "github/" ++ id.org ++ "/" ++ id.name ++
    (if id.subdir = "" then "" else "/" ++ id.subdir)

/-- One diff line, tagged as in `gitpatch::Line`. -/
inductive Line where
  | add (text : String)
  | remove (text : String)
  | context (text : String)
deriving DecidableEq

/-- One hunk of a patch: its ordered lines. -/
structure Hunk where
  lines : List Line
deriving DecidableEq

/-- One file's patch (`gitpatch::Patch`), reduced to what the pipeline
reads: the new-file path (`patch.new.path`) and the hunks. -/
structure Patch where
  path : String
  hunks : List Hunk
deriving DecidableEq

/-- All lines of a patch in file order:
`patch.hunks.iter().flat_map(|h| h.lines.iter())`. -/
def patchLines (p : Patch) : List Line :=
  (p.hunks.map Hunk.lines).flatten

/-- The extractor's error type (`package::Error`). `badRoot` is the
`BadPrefix` variant and `pathToDeep` the (source-spelled) `PathToDeep`
variant. -/
inductive Error where
  | patch (msg : String)
  | badRoot (path : String)
  | missingOrg (path : String)
  | missingRepo (path : String)
  | deletion (line : String)
  | deserialize (msg : String)
  | orgNameMismatch (path : String) (package : String)
  | pathToDeep (path : String)
deriving DecidableEq

/-- Splitting a list of characters at `'/'`, keeping empty pieces:
the semantics of Rust's `split('/')` on the underlying characters. -/
def splitCharList : List Char → List (List Char)
  | [] => [[]]
  | c :: cs =>
    if c = '/' then [] :: splitCharList cs
    else
      match splitCharList cs with
      | [] => [[c]]
      | piece :: pieces => (c :: piece) :: pieces

/-- Rust's `path.split('/')` as a list of strings. -/
def splitSlash (s : String) : List String :=
  (splitCharList s.data).map (fun cs => String.mk cs)

/-- Rust's byte slice `&path[2..]` used in `check_diff_paths` to trim the
leading `"b/"`; on the ASCII paths involved this is dropping two
characters. The Rust slice is undefined (panics) when the string is
shorter than two bytes — reachable only at the path exactly `"b"` — and
this total model does not capture that abort, so theorems over the
classifier exclude that path by hypothesis. -/
def dropTwo (s : String) : String :=
  String.mk (s.data.drop 2)

/-- The per-line walk of `changed_packages`: context lines are skipped,
a removed line is a fatal `Deletion` error, an added line is deserialized
(by the external serde-based decoder `deser`), checked against the
file-path-derived `github/org/name`, and collected. -/
def extractLines (deser : String → Except String Package)
    (pathOrg pathName : String) : List Line → Except Error (List Package)
  | [] => Except.ok []
  | Line.context _ :: rest => extractLines deser pathOrg pathName rest
  | Line.remove text :: _ => Except.error (Error.deletion text)
  | Line.add text :: rest =>
    match deser text with
    | Except.error e => Except.error (Error.deserialize e)
    | Except.ok pkg =>
      if idPath pkg.id = "github/" ++ pathOrg ++ "/" ++ pathName then
        match extractLines deser pathOrg pathName rest with
        | Except.error e => Except.error e
        | Except.ok pkgs => Except.ok (pkg :: pkgs)
      else
        Except.error (Error.orgNameMismatch
          ("github/" ++ pathOrg ++ "/" ++ pathName) (idPath pkg.id))

/-- The per-patch part of `changed_packages`: the path must split as
`b / github / org / name` exactly (the same sequence of `parts.next()`
checks as the source), then the lines are walked. -/
def changedPackagesPatch (deser : String → Except String Package)
    (p : Patch) : Except Error (List Package) :=
  match splitSlash p.path with
  | [] => Except.error (Error.badRoot p.path)
  | first :: rest1 =>
    if first = "b" then
      match rest1 with
      | [] => Except.error (Error.badRoot p.path)
      | second :: rest2 =>
        if second = "github" then
          match rest2 with
          | [] => Except.error (Error.missingOrg p.path)
          | pathOrg :: rest3 =>
            match rest3 with
            | [] => Except.error (Error.missingRepo p.path)
            | pathName :: rest4 =>
              if rest4 = [] then
                extractLines deser pathOrg pathName (patchLines p)
              else Except.error (Error.pathToDeep p.path)
        else Except.error (Error.badRoot p.path)
    else Except.error (Error.badRoot p.path)

/-- `package::changed_packages` over the parsed patch list: patches are
processed in order, packages are accumulated in file-then-line order, and
the first fatal error aborts the whole extraction. -/
def changed_packages (deser : String → Except String Package) :
    List Patch → Except Error (List Package)
  | [] => Except.ok []
  | p :: ps =>
    match changedPackagesPatch deser p with
    | Except.error e => Except.error e
    | Except.ok pkgs =>
      match changed_packages deser ps with
      | Except.error e => Except.error e
      | Except.ok more => Except.ok (pkgs ++ more)

/-- The permission verdict for one submitter against one package
(`Permission` in `main.rs`). -/
structure Permission where
  user : String
  org : String
  repo : String
  is_allowed : Bool
deriving DecidableEq

/-- `Permission::check`. The external GitHub membership query
(`client.orgs(&org).check_membership(&user)`) is passed in as its outcome
`svc` (an answer or a transport error, which `?` propagates). The second
component of the result counts how many times the membership service was
actually consulted: Rust's short-circuiting `user == org || ...` never
reaches the call when `user == org`. -/
def Permission.check (user org repo : String) (svc : Except String Bool) :
    Except String Permission × Nat :=
  if user = org then
    (Except.ok { user := user, org := org, repo := repo, is_allowed := true }, 0)
  else
    match svc with
    | Except.ok member =>
      (Except.ok { user := user, org := org, repo := repo, is_allowed := member }, 1)
    | Except.error e => (Except.error e, 1)

/-- The allowed/denied verdict of a permission-check outcome, with
transport errors passed through. -/
def permVerdict (r : Except String Permission × Nat) : Except String Bool :=
  match r.1 with
  | Except.error e => Except.error e
  | Except.ok p => Except.ok p.is_allowed

/-- One dependency's check result (`DependencyChecks`): the declared
dependency, the versions the index knows for it, and whether any of them
matches the declared constraint. -/
structure DependencyChecks where
  dep : IndexDependency
  known_versions : List SemVer
  has_match : Bool

/-- `DependencyChecks::is_good`: good iff some known version matched. -/
def DependencyChecks.is_good (d : DependencyChecks) : Bool :=
  d.has_match

/-- The manifest cross-check result (`ManifestChecks`): the version from
the index descriptor, the version from the fetched manifest, and the
per-dependency checks in declaration order. -/
structure ManifestChecks where
  package_version : SemVer
  manifest_version : SemVer
  dependencies : List DependencyChecks

/-- `ManifestChecks::is_good`: the two versions are exactly equal and
every dependency check is good. -/
def ManifestChecks.is_good (mc : ManifestChecks) : Bool :=
  decide (mc.package_version = mc.manifest_version) &&
    mc.dependencies.all DependencyChecks.is_good

/-- The dependency loop of `check_manifest`: for each declared dependency
in order, query the index (`index.available_versions(&dep.id)`, external,
passed as `availableVersions`; its failure is fatal via `?`), then record
the returned versions unchanged and whether any of them satisfies the
constraint — a pure computation. -/
def depChecksList (availableVersions : String → Except String (List SemVer)) :
    List IndexDependency → Except String (List DependencyChecks)
  | [] => Except.ok []
  | dep :: rest =>
    match availableVersions dep.id with
    | Except.error e => Except.error e
    | Except.ok available =>
      match depChecksList availableVersions rest with
      | Except.error e => Except.error e
      | Except.ok more =>
        Except.ok ({ dep := dep, known_versions := available,
                     has_match := available.any dep.version } :: more)

/-- `package::check_manifest`: evaluate the manifest (external
`ManifestFile::from_path`, passed as its outcome `manifestRes`, yielding
the manifest's declared version), then build the dependency checks and
pair the descriptor version with the manifest version. -/
def check_manifest (pkg : Package) (manifestRes : Except String SemVer)
    (availableVersions : String → Except String (List SemVer)) :
    Except String ManifestChecks :=
  match manifestRes with
  | Except.error e => Except.error e
  | Except.ok manifestVersion =>
    match depChecksList availableVersions pkg.dependencies with
    | Except.error e => Except.error e
    | Except.ok deps =>
      Except.ok { package_version := pkg.version,
                  manifest_version := manifestVersion,
                  dependencies := deps }

/-- A package's status in its report (`PackageStatus`). -/
inductive PackageStatus where
  | fetchFailed (msg : String)
  | evalFailed (msg : String)
  | manifest (checks : ManifestChecks)

/-- One package's report node (`PackageReport`). -/
structure PackageReport where
  pkg : Package
  permission : Permission
  status : PackageStatus

/-- One item of the report list: a path diagnostic (`PathReport`) or a
package report, the two implementors of `ReportItem` in `main.rs`. -/
inductive ReportItem where
  | pathReport (good : Bool) (path : String)
  | packageReport (r : PackageReport)

/-- `ReportItem::is_good` for both implementors: a path diagnostic
carries its own flag; a package report is good iff the permission is
allowed and the status is a good manifest check. -/
def ReportItem.is_good : ReportItem → Bool
  | ReportItem.pathReport good _ => good
  | ReportItem.packageReport r =>
    r.permission.is_allowed &&
      (match r.status with
       | PackageStatus.fetchFailed _ => false
       | PackageStatus.evalFailed _ => false
       | PackageStatus.manifest checks => checks.is_good)

/-- The whole-run report (`Report`): a single invalid-diff failure or the
list of path diagnostics and package reports. -/
inductive Report where
  | invalidDiff (e : Error)
  | packageReports (items : List ReportItem)

/-- `Report::is_good`: the invalid-diff variant is never good; the list
variant is good iff every item is good. -/
def Report.is_good : Report → Bool
  | Report.invalidDiff _ => false
  | Report.packageReports items => items.all ReportItem.is_good

/-- The packages contained in a report: the invalid-diff variant carries
none. -/
def Report.extractedPackages : Report → List Package
  | Report.invalidDiff _ => []
  | Report.packageReports items =>
    items.filterMap (fun item =>
      match item with
      | ReportItem.packageReport r => some r.pkg
      | ReportItem.pathReport _ _ => none)

/-- The per-patch decision of `check_diff_paths`: `none` means the patch
is retained (its path is `b/github/...`); `some d` means it is dropped and
the diagnostic `d` recorded. A path not starting with `b` is a failing
diagnostic on the full path; with the `b/` trimmed, a `.github` path is a
benign warning and anything else a failing diagnostic. Caveat: on the
path exactly `"b"` the source panics at `&patch.new.path[2..]` before
reading the second component and produces no diagnostic at all, whereas
this total model returns a diagnostic there (see `dropTwo`); theorems
about dropped paths therefore carry the hypothesis `p.path ≠ "b"`. -/
def classifyPatch (p : Patch) : Option ReportItem :=
  match splitSlash p.path with
  | [] => some (ReportItem.pathReport false p.path)
  | first :: rest =>
    if first = "b" then
      match rest with
      | [] => some (ReportItem.pathReport false (dropTwo p.path))
      | dir :: _ =>
        if dir = "github" then none
        else some (ReportItem.pathReport (decide (dir = ".github")) (dropTwo p.path))
    else some (ReportItem.pathReport false p.path)

/-- `check_diff_paths`: keeps the in-scope patches in order and records
the diagnostics for the dropped ones in order. -/
def check_diff_paths : List Patch → List Patch × List ReportItem
  | [] => ([], [])
  | p :: ps =>
    match classifyPatch p with
    | some d => ((check_diff_paths ps).1, d :: (check_diff_paths ps).2)
    | none => (p :: (check_diff_paths ps).1, (check_diff_paths ps).2)

/-- Building the per-package report items of `make_report`'s final loop;
`PackageReport::new` performs external calls and can fail fatally via `?`,
so it is passed in as `mkItem`. -/
def buildItems (mkItem : Package → Except String ReportItem) :
    List Package → Except String (List ReportItem)
  | [] => Except.ok []
  | pkg :: rest =>
    match mkItem pkg with
    | Except.error e => Except.error e
    | Except.ok item =>
      match buildItems mkItem rest with
      | Except.error e => Except.error e
      | Except.ok items => Except.ok (item :: items)

/-- `make_report`: a diff parse failure (the external `gitpatch` parse,
passed as its outcome `parsed`) or an extraction error each yield the
single invalid-diff report; otherwise the dropped-path diagnostics are
followed by one report item per extracted package. -/
def make_report (deser : String → Except String Package)
    (parsed : Except String (List Patch))
    (mkItem : Package → Except String ReportItem) : Except String Report :=
  match parsed with
  | Except.error e => Except.ok (Report.invalidDiff (Error.patch e))
  | Except.ok patches =>
    match changed_packages deser (check_diff_paths patches).1 with
    | Except.error e => Except.ok (Report.invalidDiff e)
    | Except.ok pkgs =>
      match buildItems mkItem pkgs with
      | Except.error e => Except.error e
      | Except.ok items =>
        Except.ok (Report.packageReports ((check_diff_paths patches).2 ++ items))

/-- If some added line of the walked lines fails to deserialize, the line
walk fails (with whatever fatal error is hit first). -/
theorem extractLines_error_of_add_bad (deser : String → Except String Package)
    (pathOrg pathName : String) (lines : List Line) (s msg : String)
    (hmem : Line.add s ∈ lines) (hbad : deser s = Except.error msg) :
    ∃ e, extractLines deser pathOrg pathName lines = Except.error e := by
  induction lines with
  | nil => cases hmem
  | cons l rest ih =>
    cases l with
    | add t =>
      rcases List.mem_cons.mp hmem with h | h
      · injection h with ht
        subst ht
        refine ⟨Error.deserialize msg, ?_⟩
        simp only [extractLines, hbad]
      · simp only [extractLines]
        cases hd : deser t with
        | error e2 => exact ⟨_, rfl⟩
        | ok pkg =>
          by_cases hid : idPath pkg.id = "github/" ++ pathOrg ++ "/" ++ pathName
          · obtain ⟨e, he⟩ := ih h
            simp only [if_pos hid, he]
            exact ⟨e, rfl⟩
          · simp only [if_neg hid]
            exact ⟨_, rfl⟩
    | remove t =>
      simp only [extractLines]
      exact ⟨_, rfl⟩
    | context t =>
      rcases List.mem_cons.mp hmem with h | h
      · exact absurd h (by simp)
      · simpa only [extractLines] using ih h

/-- If the walked lines contain a removed line, the line walk fails
(with whatever fatal error is hit first). -/
theorem extractLines_error_of_remove (deser : String → Except String Package)
    (pathOrg pathName : String) (lines : List Line) (s : String)
    (hmem : Line.remove s ∈ lines) :
    ∃ e, extractLines deser pathOrg pathName lines = Except.error e := by
  induction lines with
  | nil => cases hmem
  | cons l rest ih =>
    cases l with
    | add t =>
      rcases List.mem_cons.mp hmem with h | h
      · exact absurd h (by simp)
      · simp only [extractLines]
        cases hd : deser t with
        | error e2 => exact ⟨_, rfl⟩
        | ok pkg =>
          by_cases hid : idPath pkg.id = "github/" ++ pathOrg ++ "/" ++ pathName
          · obtain ⟨e, he⟩ := ih h
            simp only [if_pos hid, he]
            exact ⟨e, rfl⟩
          · simp only [if_neg hid]
            exact ⟨_, rfl⟩
    | remove t =>
      simp only [extractLines]
      exact ⟨_, rfl⟩
    | context t =>
      rcases List.mem_cons.mp hmem with h | h
      · exact absurd h (by simp)
      · simpa only [extractLines] using ih h

/-- Processing one patch either fails with some fatal error, or passes
the path checks and reduces to the line walk for some org/name pair. -/
theorem changedPackagesPatch_cases (deser : String → Except String Package)
    (p : Patch) :
    (∃ e, changedPackagesPatch deser p = Except.error e) ∨
    (∃ o n, changedPackagesPatch deser p = extractLines deser o n (patchLines p)) := by
  unfold changedPackagesPatch
  cases splitSlash p.path with
  | nil => exact Or.inl ⟨_, rfl⟩
  | cons first rest1 =>
    by_cases h1 : first = "b"
    · simp only [if_pos h1]
      cases rest1 with
      | nil => exact Or.inl ⟨_, rfl⟩
      | cons second rest2 =>
        by_cases h2 : second = "github"
        · simp only [if_pos h2]
          cases rest2 with
          | nil => exact Or.inl ⟨_, rfl⟩
          | cons o rest3 =>
            cases rest3 with
            | nil => exact Or.inl ⟨_, rfl⟩
            | cons n rest4 =>
              by_cases h4 : rest4 = []
              · simp only [if_pos h4]
                exact Or.inr ⟨o, n, rfl⟩
              · simp only [if_neg h4]
                exact Or.inl ⟨_, rfl⟩
        · simp only [if_neg h2]
          exact Or.inl ⟨_, rfl⟩
    · simp only [if_neg h1]
      exact Or.inl ⟨_, rfl⟩

/-- If any patch of the list fails to process, the whole extraction
fails (with whatever fatal error is hit first across the list). -/
theorem changed_packages_error_of_mem (deser : String → Except String Package)
    (ps : List Patch) (p : Patch) (hmem : p ∈ ps)
    (herr : ∃ e, changedPackagesPatch deser p = Except.error e) :
    ∃ e, changed_packages deser ps = Except.error e := by
  induction ps with
  | nil => cases hmem
  | cons q qs ih =>
    rcases List.mem_cons.mp hmem with h | h
    · subst h
      obtain ⟨e, he⟩ := herr
      refine ⟨e, ?_⟩
      simp only [changed_packages, he]
    · simp only [changed_packages]
      cases hq : changedPackagesPatch deser q with
      | error e => exact ⟨e, rfl⟩
      | ok pkgs =>
        obtain ⟨e, he⟩ := ih h
        rw [he]
        exact ⟨e, rfl⟩

/-- An extraction error on the retained patches makes the run's report
the single invalid-diff variant. -/
theorem make_report_invalidDiff (deser : String → Except String Package)
    (patches : List Patch) (mkItem : Package → Except String ReportItem)
    (e : Error)
    (h : changed_packages deser (check_diff_paths patches).1 = Except.error e) :
    make_report deser (Except.ok patches) mkItem =
      Except.ok (Report.invalidDiff e) := by
  simp only [make_report, h]

/-- C1: if some added line of an in-scope (retained) patch fails to
deserialize as a package descriptor, extraction fails for the entire run:
`changed_packages` returns an error, the run's report is the single
invalid-diff variant carrying that error, and zero packages are
extracted — regardless of any valid added lines elsewhere in the diff. -/
theorem invalid_descriptor_aborts_run (deser : String → Except String Package)
    (mkItem : Package → Except String ReportItem) (patches : List Patch)
    (p : Patch) (s msg : String)
    (hp : p ∈ (check_diff_paths patches).1)
    (hl : Line.add s ∈ patchLines p)
    (hbad : deser s = Except.error msg) :
    ∃ e, changed_packages deser (check_diff_paths patches).1 = Except.error e ∧
      make_report deser (Except.ok patches) mkItem =
        Except.ok (Report.invalidDiff e) ∧
      (Report.invalidDiff e).extractedPackages = [] := by
  have herr : ∃ e, changedPackagesPatch deser p = Except.error e := by
    rcases changedPackagesPatch_cases deser p with h | ⟨o, n, h⟩
    · exact h
    · obtain ⟨e, he⟩ :=
        extractLines_error_of_add_bad deser o n (patchLines p) s msg hl hbad
      exact ⟨e, h.trans he⟩
  obtain ⟨e, he⟩ := changed_packages_error_of_mem deser _ p hp herr
  exact ⟨e, he, make_report_invalidDiff deser patches mkItem e he, rfl⟩

/-- A descriptor whose identity is `acme/widgets`, used in concrete runs. -/
def pkgA : Package :=
  { id := { org := "acme", name := "widgets", subdir := "", commit := "c0ffee" },
    version := { major := 0, minor := 1, patch := 0, pre := "" },
    dependencies := [] }

/-- A concrete decoder: the line `"good"` decodes to `pkgA`, everything
else is a deserialization failure. -/
def deserA : String → Except String Package := fun s =>
  if s = "good" then Except.ok pkgA else Except.error "bad line"

/-- An in-scope patch with one valid added line followed by one malformed
added line. -/
def patchA : Patch :=
  { path := "b/github/acme/widgets",
    hunks := [{ lines := [Line.add "good", Line.add "oops"] }] }

/-- A concrete per-package report builder (never reached in the runs it
is used in). -/
def mkItemA : Package → Except String ReportItem := fun _ =>
  Except.error "unreached"

/-- Witness for C1: the malformed second line aborts the whole run even
though the first added line is a valid descriptor. -/
theorem invalid_descriptor_aborts_run_witness :
    ∃ e, changed_packages deserA (check_diff_paths [patchA]).1 = Except.error e ∧
      make_report deserA (Except.ok [patchA]) mkItemA =
        Except.ok (Report.invalidDiff e) ∧
      (Report.invalidDiff e).extractedPackages = [] :=
  invalid_descriptor_aborts_run deserA mkItemA [patchA] patchA "oops" "bad line"
    (by decide) (by decide) rfl

/-- An in-scope patch whose first added line is malformed and whose
second line is a removal. -/
def patchB : Patch :=
  { path := "b/github/acme/widgets",
    hunks := [{ lines := [Line.add "oops", Line.remove "gone"] }] }

/-- C2 counterexample: a diff with a Removed line in an in-scope patch on
which the extractor's error is a deserialization error from an earlier
added line, not a deletion error carrying the removed line — so the claim
that the extractor fails with the deletion error for that line does not
hold for every such diff. -/
theorem removed_line_error_counterexample :
    Line.remove "gone" ∈ patchLines patchB ∧
    patchB ∈ (check_diff_paths [patchB]).1 ∧
    changed_packages deserA (check_diff_paths [patchB]).1 =
      Except.error (Error.deserialize "bad line") ∧
    Error.deserialize "bad line" ≠ Error.deletion "gone" := by
  refine ⟨by decide, by decide, rfl, by decide⟩

/-- C2 (amended): if some patch retained as in-scope contains a Removed
line, the whole run reports the single invalid-diff variant (the
extractor fails with a fatal error) and zero packages are extracted. -/
theorem removed_line_aborts_run (deser : String → Except String Package)
    (mkItem : Package → Except String ReportItem) (patches : List Patch)
    (p : Patch) (s : String)
    (hp : p ∈ (check_diff_paths patches).1)
    (hl : Line.remove s ∈ patchLines p) :
    ∃ e, changed_packages deser (check_diff_paths patches).1 = Except.error e ∧
      make_report deser (Except.ok patches) mkItem =
        Except.ok (Report.invalidDiff e) ∧
      (Report.invalidDiff e).extractedPackages = [] := by
  have herr : ∃ e, changedPackagesPatch deser p = Except.error e := by
    rcases changedPackagesPatch_cases deser p with h | ⟨o, n, h⟩
    · exact h
    · obtain ⟨e, he⟩ :=
        extractLines_error_of_remove deser o n (patchLines p) s hl
      exact ⟨e, h.trans he⟩
  obtain ⟨e, he⟩ := changed_packages_error_of_mem deser _ p hp herr
  exact ⟨e, he, make_report_invalidDiff deser patches mkItem e he, rfl⟩

/-- An in-scope patch containing a removal after a valid added line. -/
def patchB2 : Patch :=
  { path := "b/github/acme/widgets",
    hunks := [{ lines := [Line.add "good", Line.remove "gone"] }] }

/-- Witness for the amended C2: a run whose only defect is the removed
line reports invalid-diff and extracts nothing. -/
theorem removed_line_aborts_run_witness :
    ∃ e, changed_packages deserA (check_diff_paths [patchB2]).1 = Except.error e ∧
      make_report deserA (Except.ok [patchB2]) mkItemA =
        Except.ok (Report.invalidDiff e) ∧
      (Report.invalidDiff e).extractedPackages = [] :=
  removed_line_aborts_run deserA mkItemA [patchB2] patchB2 "gone"
    (by decide) (by decide)

/-- C3: for a well-formed descriptor added under an in-scope file path
`b/github/org/name`, extraction succeeds exactly when the descriptor
identity's computed index path equals the file-derived
`github/org/name`; otherwise it fails with an org/name mismatch error
naming both the file-derived path and the identity's path. -/
theorem id_path_consistency (deser : String → Except String Package)
    (pkg : Package) (org name s : String) (p : Patch)
    (hpath : splitSlash p.path = ["b", "github", org, name])
    (hlines : patchLines p = [Line.add s])
    (hok : deser s = Except.ok pkg) :
    (changed_packages deser [p] = Except.ok [pkg] ↔
      idPath pkg.id = "github/" ++ org ++ "/" ++ name) ∧
    (idPath pkg.id ≠ "github/" ++ org ++ "/" ++ name →
      changed_packages deser [p] =
        Except.error (Error.orgNameMismatch
          ("github/" ++ org ++ "/" ++ name) (idPath pkg.id))) := by
  have hcp : changedPackagesPatch deser p =
      extractLines deser org name [Line.add s] := by
    unfold changedPackagesPatch
    rw [hpath, hlines]
    rfl
  by_cases hid : idPath pkg.id = "github/" ++ org ++ "/" ++ name
  · have hres : changed_packages deser [p] = Except.ok [pkg] := by
      simp [changed_packages, hcp, extractLines, hok, hid]
    exact ⟨⟨fun _ => hid, fun _ => hres⟩, fun hne => absurd hid hne⟩
  · have hres : changed_packages deser [p] =
        Except.error (Error.orgNameMismatch
          ("github/" ++ org ++ "/" ++ name) (idPath pkg.id)) := by
      simp [changed_packages, hcp, extractLines, hok, hid]
    refine ⟨⟨fun hok2 => ?_, fun hidp => absurd hidp hid⟩, fun _ => hres⟩
    rw [hres] at hok2
    cases hok2

/-- A one-added-line patch whose path agrees with `pkgA`'s identity. -/
def patchC : Patch :=
  { path := "b/github/acme/widgets", hunks := [{ lines := [Line.add "good"] }] }

/-- The same added line placed under a different repository name. -/
def patchCbad : Patch :=
  { path := "b/github/acme/gadgets", hunks := [{ lines := [Line.add "good"] }] }

/-- Witness for C3: under the matching path the descriptor is extracted;
under a mismatching path the run fails with the mismatch error naming
both paths. -/
theorem id_path_consistency_witness :
    (changed_packages deserA [patchC] = Except.ok [pkgA] ↔
      idPath pkgA.id = "github/" ++ "acme" ++ "/" ++ "widgets") ∧
    changed_packages deserA [patchCbad] =
      Except.error (Error.orgNameMismatch
        ("github/" ++ "acme" ++ "/" ++ "gadgets") (idPath pkgA.id)) :=
  ⟨(id_path_consistency deserA pkgA "acme" "widgets" "good" patchC
      (by decide) (by decide) rfl).1,
   (id_path_consistency deserA pkgA "acme" "gadgets" "good" patchCbad
      (by decide) (by decide) rfl).2 (by decide)⟩

/-- A patch under the adjacent CI directory, not under the index root. -/
def ciPatch : Patch := { path := "b/.github/workflows/ci.yml", hunks := [] }

/-- C4 counterexample: `b/.github/workflows/ci.yml` has first two
components other than the marker `b` followed by the index root `github`,
yet its recorded diagnostic is good (a warning), not failing — so the
claim that every such patch is recorded as a failing diagnostic is false
on this input. -/
theorem out_of_scope_failing_counterexample :
    (splitSlash ciPatch.path).take 2 ≠ ["b", "github"] ∧
    classifyPatch ciPatch =
      some (ReportItem.pathReport true ".github/workflows/ci.yml") ∧
    ReportItem.is_good
      (ReportItem.pathReport true ".github/workflows/ci.yml") = true := by
  refine ⟨by decide, rfl, rfl⟩

/-- Splitting a character list always yields at least one piece, exactly
as Rust's `split('/')` always yields at least one item. -/
theorem splitCharList_ne_nil (cs : List Char) : splitCharList cs ≠ [] := by
  induction cs with
  | nil => simp [splitCharList]
  | cons c cs ih =>
    by_cases h : c = '/'
    · simp [splitCharList, h]
    · simp only [splitCharList, if_neg h]
      cases hs : splitCharList cs with
      | nil => simp
      | cons piece pieces => simp

/-- A split with a single piece can only come from the piece itself (the
input contained no separator). -/
theorem splitCharList_singleton (cs piece : List Char)
    (h : splitCharList cs = [piece]) : cs = piece := by
  induction cs generalizing piece with
  | nil =>
    simp only [splitCharList, List.cons.injEq] at h
    exact h.1
  | cons c cs ih =>
    by_cases hc : c = '/'
    · rw [splitCharList, if_pos hc] at h
      injection h with h1 h2
      exact absurd h2 (splitCharList_ne_nil cs)
    · rw [splitCharList, if_neg hc] at h
      cases hs : splitCharList cs with
      | nil => exact absurd hs (splitCharList_ne_nil cs)
      | cons q qs =>
        rw [hs] at h
        injection h with h1 h2
        subst h2
        rw [← h1, ih q hs]

/-- The only path whose slash-split is the single component `b` is the
path `b` itself — the one input on which the source's
`&patch.new.path[2..]` slice is out of bounds. -/
theorem splitSlash_singleton_b (s : String) (h : splitSlash s = ["b"]) :
    s = "b" := by
  unfold splitSlash at h
  cases hs : splitCharList s.data with
  | nil => exact absurd hs (splitCharList_ne_nil s.data)
  | cons piece pieces =>
    rw [hs] at h
    simp only [List.map_cons, List.cons.injEq] at h
    obtain ⟨h1, h2⟩ := h
    have hps : pieces = [] := by simpa using h2
    subst hps
    have hdata : s.data = piece := splitCharList_singleton s.data piece hs
    rw [← h1, ← hdata]

/-- C4 (amended): a patch whose path's first two slash-separated
components are not `b` then `github` — excluding the path exactly `b`,
on which the source panics at the byte slice `&path[2..]` and produces no
report at all — is recorded as a diagnostic and dropped (the remaining
patches are still processed); the diagnostic is failing unless the two
components are exactly `b` then `.github`, in which case it is a good
(warning) diagnostic. -/
theorem out_of_scope_path_dropped (p : Patch) (ps : List Patch)
    (h : (splitSlash p.path).take 2 ≠ ["b", "github"])
    (hb : p.path ≠ "b") :
    ∃ g t, classifyPatch p = some (ReportItem.pathReport g t) ∧
      check_diff_paths (p :: ps) =
        ((check_diff_paths ps).1,
          ReportItem.pathReport g t :: (check_diff_paths ps).2) ∧
      (g = true ↔ (splitSlash p.path).take 2 = ["b", ".github"]) := by
  have main : ∃ g t, classifyPatch p = some (ReportItem.pathReport g t) ∧
      (g = true ↔ (splitSlash p.path).take 2 = ["b", ".github"]) := by
    cases hsp : splitSlash p.path with
    | nil =>
      refine ⟨false, p.path, ?_, ?_⟩
      · simp [classifyPatch, hsp]
      · simp [hsp]
    | cons first rest =>
      by_cases h1 : first = "b"
      · subst h1
        cases rest with
        | nil => exact absurd (splitSlash_singleton_b p.path hsp) hb
        | cons dir rest2 =>
          by_cases h2 : dir = "github"
          · subst h2
            rw [hsp] at h
            exact absurd rfl h
          · refine ⟨decide (dir = ".github"), dropTwo p.path, ?_, ?_⟩
            · simp [classifyPatch, hsp, h2]
            · simp [hsp, List.take]
      · refine ⟨false, p.path, ?_, ?_⟩
        · simp [classifyPatch, hsp, h1]
        · simp [hsp, h1, List.take]
  obtain ⟨g, t, hcl, hiff⟩ := main
  refine ⟨g, t, hcl, ?_, hiff⟩
  simp only [check_diff_paths, hcl]

/-- A patch that is neither under the index root nor under CI. -/
def strayPatch : Patch := { path := "docs/readme.md", hunks := [] }

/-- Witness for the amended C4: a stray path is dropped with a failing
diagnostic while the (empty) remainder of the run is unaffected. -/
theorem out_of_scope_path_dropped_witness :
    ∃ g t, classifyPatch strayPatch = some (ReportItem.pathReport g t) ∧
      check_diff_paths [strayPatch] =
        ((check_diff_paths []).1,
          ReportItem.pathReport g t :: (check_diff_paths []).2) ∧
      (g = true ↔ (splitSlash strayPatch.path).take 2 = ["b", ".github"]) :=
  out_of_scope_path_dropped strayPatch [] (by decide) (by decide)

/-- An otherwise-unremarkable patch whose index-root-relative path has
the three-component shape org/name/subdir. -/
def deepPatch : Patch :=
  { path := "b/github/acme/widgets/lib", hunks := [{ lines := [] }] }

/-- C5 counterexample: a file path of shape org/name/subdir
(`acme/widgets/lib` under the index root) is not accepted — extraction
fails with the path-too-deep error, so the claim that extraction accepts
the shape org/name/subdir is false on this input. -/
theorem subdir_path_rejected_counterexample :
    splitSlash deepPatch.path = ["b", "github", "acme", "widgets", "lib"] ∧
    changed_packages deserA [deepPatch] =
      Except.error (Error.pathToDeep "b/github/acme/widgets/lib") := by
  refine ⟨by decide, rfl⟩

/-- C5 (amended): extraction accepts an in-scope patch's path exactly
when the index-root-relative path has the two-component shape org/name
(a subdirectory is carried inside the name component's encoding, never
as a third component): with only `org` present it fails with
missing-repo, with nothing after the root it fails with missing-org, and
any third component is the fatal path-too-deep error. -/
theorem path_depth_enforced (deser : String → Except String Package)
    (p : Patch) :
    (splitSlash p.path = ["b", "github"] →
      changedPackagesPatch deser p = Except.error (Error.missingOrg p.path)) ∧
    (∀ o, splitSlash p.path = ["b", "github", o] →
      changedPackagesPatch deser p = Except.error (Error.missingRepo p.path)) ∧
    (∀ o n, splitSlash p.path = ["b", "github", o, n] →
      changedPackagesPatch deser p = extractLines deser o n (patchLines p)) ∧
    (∀ o n r rest, splitSlash p.path = "b" :: "github" :: o :: n :: r :: rest →
      changedPackagesPatch deser p = Except.error (Error.pathToDeep p.path)) := by
  refine ⟨?_, ?_, ?_, ?_⟩
  · intro hsp
    unfold changedPackagesPatch
    rw [hsp]
    rfl
  · intro o hsp
    unfold changedPackagesPatch
    rw [hsp]
    rfl
  · intro o n hsp
    unfold changedPackagesPatch
    rw [hsp]
    rfl
  · intro o n r rest hsp
    unfold changedPackagesPatch
    rw [hsp]
    simp

/-- Witness for the amended C5: the three-component path fails with
path-too-deep. -/
theorem path_depth_enforced_witness :
    changedPackagesPatch deserA deepPatch =
      Except.error (Error.pathToDeep "b/github/acme/widgets/lib") :=
  (path_depth_enforced deserA deepPatch).2.2.2 "acme" "widgets" "lib" []
    (by decide)

/-- C6: a patch whose path lies under the adjacent allowed CI directory
(`b/.github/...`) is recorded as a warning diagnostic whose is-good
predicate is true and is dropped from further processing, and such a
diagnostic alone never flips the overall report's is-good predicate. -/
theorem ci_path_warning (p : Patch) (ps : List Patch) (rest : List String)
    (h : splitSlash p.path = "b" :: ".github" :: rest) :
    classifyPatch p = some (ReportItem.pathReport true (dropTwo p.path)) ∧
    check_diff_paths (p :: ps) =
      ((check_diff_paths ps).1,
        ReportItem.pathReport true (dropTwo p.path) :: (check_diff_paths ps).2) ∧
    ReportItem.is_good (ReportItem.pathReport true (dropTwo p.path)) = true ∧
    (∀ items : List ReportItem,
      Report.is_good (Report.packageReports
        (ReportItem.pathReport true (dropTwo p.path) :: items)) =
      Report.is_good (Report.packageReports items)) := by
  have hcl : classifyPatch p = some (ReportItem.pathReport true (dropTwo p.path)) := by
    simp [classifyPatch, h]
  refine ⟨hcl, ?_, rfl, ?_⟩
  · simp only [check_diff_paths, hcl]
  · intro items
    simp [Report.is_good, ReportItem.is_good]

/-- Witness for C6: the concrete CI patch is dropped with a good warning
diagnostic that leaves the overall verdict untouched. -/
theorem ci_path_warning_witness :
    classifyPatch ciPatch =
      some (ReportItem.pathReport true (dropTwo ciPatch.path)) ∧
    check_diff_paths [ciPatch] =
      ((check_diff_paths []).1,
        ReportItem.pathReport true (dropTwo ciPatch.path) :: (check_diff_paths []).2) ∧
    ReportItem.is_good (ReportItem.pathReport true (dropTwo ciPatch.path)) = true ∧
    (∀ items : List ReportItem,
      Report.is_good (Report.packageReports
        (ReportItem.pathReport true (dropTwo ciPatch.path) :: items)) =
      Report.is_good (Report.packageReports items)) :=
  ci_path_warning ciPatch [] ["workflows", "ci.yml"] (by decide)

/-- C7: a manifest check is good exactly when the descriptor version and
the manifest version are equal under strict (structural) semantic-version
equality and every dependency check is good; in particular 0.2.0 against
0.2.0-pre is not good, and 0.2.0 against 0.2.0 with all-good dependencies
is good. -/
theorem manifest_check_version_exact :
    (∀ mc : ManifestChecks, mc.is_good = true ↔
      (mc.package_version = mc.manifest_version ∧
        ∀ d ∈ mc.dependencies, d.is_good = true)) ∧
    ManifestChecks.is_good
      { package_version := { major := 0, minor := 2, patch := 0, pre := "" },
        manifest_version := { major := 0, minor := 2, patch := 0, pre := "pre" },
        dependencies := [] } = false ∧
    ManifestChecks.is_good
      { package_version := { major := 0, minor := 2, patch := 0, pre := "" },
        manifest_version := { major := 0, minor := 2, patch := 0, pre := "" },
        dependencies :=
          [{ dep := { id := "dep", version := fun _ => true },
             known_versions := [{ major := 1, minor := 0, patch := 0, pre := "" }],
             has_match := true }] } = true := by
  refine ⟨?_, rfl, rfl⟩
  intro mc
  simp [ManifestChecks.is_good, List.all_eq_true, DependencyChecks.is_good]

/-- C8: the dependency check built by `check_manifest` stores the index's
known-version list unchanged and sets the has-match flag by the pure
matching predicate, which is true exactly when some known version
satisfies the constraint. -/
theorem dependency_match_existence (pkg : Package) (dep : IndexDependency)
    (mv : SemVer) (avail : String → Except String (List SemVer))
    (L : List SemVer)
    (h1 : pkg.dependencies = [dep]) (h2 : avail dep.id = Except.ok L) :
    check_manifest pkg (Except.ok mv) avail =
      Except.ok { package_version := pkg.version, manifest_version := mv,
                  dependencies := [{ dep := dep, known_versions := L,
                                     has_match := L.any dep.version }] } ∧
    (L.any dep.version = true ↔ ∃ v ∈ L, dep.version v = true) := by
  constructor
  · simp [check_manifest, h1, depChecksList, h2]
  · simp [List.any_eq_true]

/-- Modelled from the spec: the matching predicate of the caret
constraint `^1` (the semver matcher lives in the external package
library) — satisfied by any release version with major 1. -/
def caretOne : SemVer → Bool := fun v => decide (v.major = 1 ∧ v.pre = "")

/-- The dependency `foo` constrained by `^1`. -/
def depF : IndexDependency := { id := "foo", version := caretOne }

/-- The known-version set {1.0.0, 1.2.0, 2.0.0}. -/
def knownF : List SemVer :=
  [{ major := 1, minor := 0, patch := 0, pre := "" },
   { major := 1, minor := 2, patch := 0, pre := "" },
   { major := 2, minor := 0, patch := 0, pre := "" }]

/-- A package declaring exactly the dependency `foo ^1`. -/
def pkgF : Package :=
  { id := { org := "acme", name := "widgets", subdir := "", commit := "c0ffee" },
    version := { major := 0, minor := 1, patch := 0, pre := "" },
    dependencies := [depF] }

/-- An index query answering every identity with `knownF`. -/
def availF : String → Except String (List SemVer) := fun _ => Except.ok knownF

/-- Witness for C8: with known versions {1.0.0, 1.2.0, 2.0.0} and the
constraint `^1`, the recorded list is the query result unchanged and the
check is good. -/
theorem dependency_match_existence_witness :
    (check_manifest pkgF
        (Except.ok { major := 0, minor := 1, patch := 0, pre := "" }) availF =
      Except.ok { package_version := pkgF.version,
                  manifest_version := { major := 0, minor := 1, patch := 0, pre := "" },
                  dependencies := [{ dep := depF, known_versions := knownF,
                                     has_match := knownF.any depF.version }] } ∧
      (knownF.any depF.version = true ↔ ∃ v ∈ knownF, depF.version v = true)) ∧
    DependencyChecks.is_good
      { dep := depF, known_versions := knownF,
        has_match := knownF.any depF.version } = true :=
  ⟨dependency_match_existence pkgF depF
      { major := 0, minor := 1, patch := 0, pre := "" } availF knownF rfl rfl,
   by decide⟩

/-- C9: when the submitter handle equals the owning organization's name,
the permission check is allowed with zero membership-service calls, for
every behaviour of the membership service. -/
theorem self_owned_bypass (user org repo : String) (svc : Except String Bool)
    (h : user = org) :
    Permission.check user org repo svc =
      (Except.ok { user := user, org := org, repo := repo, is_allowed := true },
        0) := by
  simp [Permission.check, h]

/-- Witness for C9: the self-owned submitter is allowed even while the
membership service is failing. -/
theorem self_owned_bypass_witness :
    Permission.check "acme" "acme" "widgets" (Except.error "service down") =
      (Except.ok { user := "acme", org := "acme", repo := "widgets",
                   is_allowed := true }, 0) :=
  self_owned_bypass "acme" "acme" "widgets" (Except.error "service down") rfl

/-- C10: the permission verdict (and even the number of membership calls)
never depends on the repo argument — two checks differing only in the
repo produce the same allowed/denied/error outcome. -/
theorem verdict_ignores_repo (user org repo1 repo2 : String)
    (svc : Except String Bool) :
    permVerdict (Permission.check user org repo1 svc) =
      permVerdict (Permission.check user org repo2 svc) ∧
    (Permission.check user org repo1 svc).2 =
      (Permission.check user org repo2 svc).2 := by
  by_cases h : user = org
  · simp [Permission.check, h, permVerdict]
  · cases svc with
    | ok b => simp [Permission.check, h, permVerdict]
    | error e => simp [Permission.check, h, permVerdict]
